import Mathlib

/-
Verification of the bafser typed JSON marshalling engine (src/bafser/jsonobj.py
and src/bafser/doc_api.py) against its specification.

Modelling conventions:
* Python runtime values are the inductive `PyVal`. JSON objects are `PyVal.dict`
  association lists with string keys (Python dicts preserve insertion order and
  have unique keys). A parsed `JsonObj` instance is `PyVal.inst cls fields excs`:
  the class name, the instance attributes for the schema fields (in
  `_type_hints` order) and the `_exceptions` list (exception messages are
  modelled as strings). `PyVal.undef` is the `undefined` sentinel.
* Floats and datetimes carry opaque string tokens: no claim computes with them.
* A class's `_type_hints` is a `Schema`: ordered fields with the declared type
  (`JsonOpt[T]` is `JType.opt T`) and the optional class-level default
  (`hasattr` in `__init__` sees class attributes). Classes are referred to by
  name through an environment `Env`, mirroring the registry of declared
  `JsonObj` subclasses.
* The overridable hooks `_parse` and `_serialize` are modelled at their library
  defaults (both return `None`, so they never remap a key, transform a value or
  raise): every claim below is about classes with no hooks registered. The only
  site that appends to `_exceptions` during parsing is the `try/except` around
  the `_parse` hook, so with the default hook the stored list stays empty.
* The configurable `__datetime_parser__` / `__datetime_serializer__` are
  parameters `dtp` (failure = `Option.none`, mirroring the swallowed exception)
  and `dts`.
* `validate` / `validate_type` recurse through lazily coerced nested instances
  (`otype(obj)`), which is not structural in the input; they take a fuel
  argument (the recursion-depth ceiling of §5 of the spec). `Option.none`
  means the ceiling was hit; claims are stated about completed runs. Raised
  exceptions are `Except.error`. The `TypedDict` fallback of `validate_type`
  is outside the modelled algebra (no claim concerns it).
-/

namespace Bafser

/-- Python runtime values as seen by the json engine. -/
inductive PyVal where
  | null
  | bool (b : Bool)
  | int (n : Int)
  | float (tok : String)
  | str (s : String)
  | datetime (iso : String)
  | list (xs : List PyVal)
  | dict (kvs : List (String × PyVal))
  | inst (cls : String) (fields : List (String × PyVal)) (excs : List (String × String))
  | undef

/-- The closed algebra of declared field types that `validate_type` supports
(its docstring: int, float, bool, str, object, None, list, dict, typed
generics, unions) plus `JsonOpt` and nested `JsonObj` subclasses (referred to
by class name) and `datetime`. -/
inductive JType where
  | int
  | float
  | bool
  | str
  | nul
  | object
  | datetime
  | record (cls : String)
  | list (elem : JType)
  | dict (key : JType) (val : JType)
  | union (members : List JType)
  | opt (inner : JType)
  | any

/-- One entry of `_type_hints`: field name, declared type, class-level default. -/
structure Field where
  name : String
  ty : JType
  dflt : Option PyVal

/-- A `JsonObj` subclass's schema: its `_type_hints` in declaration order. -/
structure Schema where
  fields : List Field

/-- The registry of declared `JsonObj` subclasses, by class name. -/
abbrev Env := List (String × Schema)

/-- Resolve a class name to its schema (declared classes always resolve). -/
def getSchema (env : Env) (cls : String) : Schema :=
  match env.find? (fun p => p.1 == cls) with
  | some p => p.2
  | Option.none => ⟨[]⟩

/-- First field with a given name (the `_type_hints` dict lookup). -/
def findTy : List Field → String → Option JType
  | [], _ => Option.none
  | f :: rest, k => if f.name == k then some f.ty else findTy rest k

/-- The declared type of field `k`, i.e. `self._type_hints.get(k, None)`. -/
def hintOf (s : Schema) (k : String) : Option JType :=
  findTy s.fields k

/-- JsonOpt[T] replaced with T, as in `_field_types` (`__init_subclass__`). -/
def stripOpt : JType → JType
  | .opt t => t
  | t => t

/-- Whether a declared type is `JsonOpt[...]` (`_optional_fields`). -/
def isOptTy : JType → Bool
  | .opt _ => true
  | _ => false

def isUndef : PyVal → Bool
  | .undef => true
  | _ => false

def isAnyTy : JType → Bool
  | .any => true
  | _ => false

def isUnionTy : JType → Bool
  | .union _ => true
  | _ => false

/-- First-match association-list lookup (Python attribute / dict access). -/
def lookupKV (kvs : List (String × PyVal)) (k : String) : Option PyVal :=
  match kvs with
  | [] => Option.none
  | p :: rest => if p.1 == k then some p.2 else lookupKV rest k

/-- The attributes after the first loop of `JsonObj.__init__`: every hint
either keeps its class-level default (`hasattr`) or is set to `undefined`. -/
def initFields (s : Schema) : List (String × PyVal) :=
  s.fields.map (fun f => (f.name, f.dflt.getD PyVal.undef))

/-- `setattr(self, k, v)` on the modelled attribute list. -/
def setField (fields : List (String × PyVal)) (k : String) (v : PyVal) :
    List (String × PyVal) :=
  fields.map (fun p => if p.1 == k then (k, v) else p)

mutual
/-- The type-directed-coercion part of `JsonObj.__parse_item__` (after the
default `_parse` hook returned `None` and the `k not in _type_hints` check
passed; the loops below inline that check so that the recursion stays
structural). `t` is the type the caller passes (`_type_hints.get(k)` at top
level, the element type inside a list). The nested-`JsonObj` branch
`v = t(v)` inlines `JsonObj.__init__` of the nested class. -/
def JsonObj.parseCoerce (env : Env) (dtp : PyVal → Option PyVal) (s : Schema)
    (k : String) (v : PyVal) (t : Option JType) : PyVal :=
  match t with
  | some (.record cls) =>
    (match v with
      | .dict kvs =>
        .inst cls
          (JsonObj.parseFields env dtp (getSchema env cls) kvs
            (initFields (getSchema env cls))) []
      | _ => .inst cls (initFields (getSchema env cls)) [])
  | some (.list t1) =>
    (match v with
      | .list xs => .list (JsonObj.parseEls env dtp s k xs t1)
      | _ => v)
  | some .datetime =>
    (match v with
      | .datetime iso => .datetime iso
      | _ =>
        match dtp v with
        | some d => d
        | Option.none => v)
  | _ => v

/-- The `for k, v in json.items()` loop of `JsonObj.__init__`: each pair goes
through `__parse_item__` (hint check, then coercion) and is assigned when a
key is returned, i.e. when the key is a schema field. -/
def JsonObj.parseFields (env : Env) (dtp : PyVal → Option PyVal) (s : Schema)
    (pending : List (String × PyVal)) (fields : List (String × PyVal)) :
    List (String × PyVal) :=
  match pending with
  | [] => fields
  | (k, v) :: rest =>
    match hintOf s k with
    | Option.none => JsonObj.parseFields env dtp s rest fields
    | some _ =>
      JsonObj.parseFields env dtp s rest
        (setField fields k (JsonObj.parseCoerce env dtp s k v (hintOf s k)))

/-- The element loop of the generic-list branch of `__parse_item__`: each
element goes through `__parse_item__` again with the element type; elements
whose parse yields `undefined` or no key (the key is rechecked against the
hints) are dropped. -/
def JsonObj.parseEls (env : Env) (dtp : PyVal → Option PyVal) (s : Schema)
    (k : String) (xs : List PyVal) (t1 : JType) : List PyVal :=
  match xs with
  | [] => []
  | el :: rest =>
    match hintOf s k with
    | Option.none => JsonObj.parseEls env dtp s k rest t1
    | some _ =>
      if isUndef (JsonObj.parseCoerce env dtp s k el (some t1)) then
        JsonObj.parseEls env dtp s k rest t1
      else
        JsonObj.parseCoerce env dtp s k el (some t1)
          :: JsonObj.parseEls env dtp s k rest t1
end

/-- JsonObj.__parse_item__ with the default `_parse` hook (which returns
`None`: no key remap, no value transform, no recorded exception): the
`k not in self._type_hints` check, then the type-directed coercion. Returns
the key to assign (`Option.none` when the key is not a schema field) and the
value. The loops above inline exactly this definition. -/
def JsonObj.parseItem (env : Env) (dtp : PyVal → Option PyVal) (s : Schema)
    (k : String) (v : PyVal) (t : Option JType) : Option String × PyVal :=
  match hintOf s k with
  | Option.none => (Option.none, v)
  | some _ => (some k, JsonObj.parseCoerce env dtp s k v t)

/-- The attribute list produced by `JsonObj.__init__` on raw value `json`:
defaults/undefined first, then the parse loop when the input is a dict. -/
def JsonObj.initData (env : Env) (dtp : PyVal → Option PyVal) (cls : String)
    (json : PyVal) : List (String × PyVal) :=
  match json with
  | .dict kvs =>
    JsonObj.parseFields env dtp (getSchema env cls) kvs
      (initFields (getSchema env cls))
  | _ => initFields (getSchema env cls)

/-- JsonObj.__init__ : construct an instance of class `cls` from a raw value.
With the default `_parse` hook the stored `_exceptions` list stays empty. -/
def JsonObj.init (env : Env) (dtp : PyVal → Option PyVal) (cls : String)
    (json : PyVal) : PyVal :=
  .inst cls (JsonObj.initData env dtp cls json) []

/-- The schema-field attributes of an instance (`items()` reads `getattr` for
each `_type_hints` key; the modelled instance stores exactly those). -/
def JsonObj.fieldsOf : PyVal → List (String × PyVal)
  | .inst _ fields _ => fields
  | _ => []

/-- The `_exceptions` list of an instance. -/
def JsonObj.excsOf : PyVal → List (String × String)
  | .inst _ _ excs => excs
  | _ => []

mutual
/-- JsonObj.__serialize_item__ with the default `_serialize` hook (returns
`None`). Order of the source branches: undefined, nested `JsonObj` (emit its
`json()`), datetime (apply the serializer), list (serialize elements, dropping
those that serialize to undefined), otherwise the value unchanged. -/
def JsonObj.serializeItem (dts : String → PyVal) (k : String) (v : PyVal) :
    String × PyVal :=
  match v with
  | .undef => (k, .undef)
  | .inst _ fields _ => (k, .dict (JsonObj.serializeFields dts fields))
  | .datetime iso => (k, dts iso)
  | .list xs => (k, .list (JsonObj.serializeEls dts k xs))
  | v => (k, v)

/-- The loop of `JsonObj.json()`: serialize each field, eliding those whose
serialized value is undefined. -/
def JsonObj.serializeFields (dts : String → PyVal)
    (fields : List (String × PyVal)) : List (String × PyVal) :=
  match fields with
  | [] => []
  | (k, v) :: rest =>
    match JsonObj.serializeItem dts k v with
    | (k2, v2) =>
      if isUndef v2 then JsonObj.serializeFields dts rest
      else (k2, v2) :: JsonObj.serializeFields dts rest

/-- The element loop of the list branch of `__serialize_item__`. -/
def JsonObj.serializeEls (dts : String → PyVal) (k : String)
    (xs : List PyVal) : List PyVal :=
  match xs with
  | [] => []
  | el :: rest =>
    match JsonObj.serializeItem dts k el with
    | (_, el2) =>
      if isUndef el2 then JsonObj.serializeEls dts k rest
      else el2 :: JsonObj.serializeEls dts k rest
end

/-- JsonObj.json() : the serialized dict of an instance. -/
def JsonObj.json (dts : String → PyVal) : PyVal → PyVal
  | .inst _ fields _ => .dict (JsonObj.serializeFields dts fields)
  | v => v

/-- The name used in error messages: `type_names.get(t, t.__name__)`. The
`type_names` table only maps `NoneType` to "None"; everything else uses the
Python `__name__` (so `str` reads "str", generic aliases read their origin
name). The `union` and `opt` entries are unreachable by the claims (on a
union the source formats members individually; a bare `JsonOpt[...]` has no
reliable `__name__`). -/
def typeName : JType → String
  | .int => "int"
  | .float => "float"
  | .bool => "bool"
  | .str => "str"
  | .nul => "None"
  | .object => "object"
  | .datetime => "datetime"
  | .record cls => cls
  | .list _ => "list"
  | .dict _ _ => "dict"
  | .union _ => "UnionType"
  | .opt _ => "JsonOpt"
  | .any => "Any"

/-- Python `isinstance(v, t)` for the simple-type branch of `validate_type`.
Note `isinstance(True, int)` is true in Python (bool subclasses int); the call
site pre-filters bool values. `object` accepts everything, `undefined`
included. An int is not an instance of `float`. -/
def isinst (v : PyVal) (t : JType) : Bool :=
  match t, v with
  | .int, .int _ => true
  | .int, .bool _ => true
  | .float, .float _ => true
  | .bool, .bool _ => true
  | .str, .str _ => true
  | .nul, .null => true
  | .object, _ => true
  | .datetime, .datetime _ => true
  | _, _ => false

/-- The simple-type branch of `validate_type` for a primitive or datetime
`t` (the Python `isinstance(otype, type)` branch, minus the `JsonObj`
subclass case): a bool passes only when the declared type is bool (the
`type(obj) is bool` pre-check skips the isinstance chain, so a bool then
falls through to the failure returns); otherwise isinstance, then the
undefined check, then the mismatch message. -/
def validateSimple (v : PyVal) (t : JType) : Option String :=
  match v with
  | .bool _ =>
    match t with
    | .bool => Option.none
    | _ => some (" is not " ++ typeName t)
  | _ =>
    if isinst v t then Option.none
    else if isUndef v then some " is undefined"
    else some (" is not " ++ typeName t)

/-- The return of `JsonObj.validate()` after the loop: a recorded exception
takes priority over the loop's error; its message uses the declared hint's
name when the key is a schema field. -/
def JsonObj.validateReport (s : Schema) (excs : List (String × String))
    (res : Option String) : Option String :=
  match excs with
  | [] => res
  | (k, x) :: _ =>
    match hintOf s k with
    | some t => some (k ++ " is not " ++ typeName t ++ ": " ++ x)
    | Option.none => some (k ++ ": " ++ x)

mutual
/-- validate_type(obj, otype, r): fuelled. `some (.ok Option.none)` is
success, `some (.ok (some e))` a returned validation error (path suffix),
`some (.error x)` a raised exception, `Option.none` fuel exhaustion. -/
def validate_type (env : Env) (dtp : PyVal → Option PyVal) :
    Nat → PyVal → JType → Bool → Option (Except String (Option String))
  | 0, _, _, _ => Option.none
  | Nat.succ f, v, t, r =>
    match t with
    | .int => some (.ok (validateSimple v t))
    | .float => some (.ok (validateSimple v t))
    | .bool => some (.ok (validateSimple v t))
    | .str => some (.ok (validateSimple v t))
    | .nul => some (.ok (validateSimple v t))
    | .object => some (.ok (validateSimple v t))
    | .datetime => some (.ok (validateSimple v t))
    | .record cls =>
      match v with
      | .bool _ => some (.ok (some (" is not " ++ typeName t)))
      | .inst icls ifields iexcs =>
        validateCoerced env dtp f icls ifields iexcs r
      | _ =>
        validateCoerced env dtp f cls (JsonObj.initData env dtp cls v) [] r
    | .list t1 =>
      match v with
      | .list xs => validateList env dtp f xs t1 r 0
      | _ => some (.ok (some (" is not list[" ++ typeName t1 ++ "]")))
    | .dict tk tv =>
      match v with
      | .dict kvs => validateDict env dtp f kvs tk tv r
      | _ =>
        some (.ok (some
          (" is not dict[" ++ typeName tk ++ "," ++ typeName tv ++ "]")))
    | .union ts =>
      validateUnion env dtp f v ts r
        (" is not " ++ String.intercalate " | " (ts.map typeName))
    | .opt t1 =>
      if isUndef v then some (.ok Option.none)
      else
        match validate_type env dtp f v t1 r with
        | Option.none => Option.none
        | some (.error x) => some (.error x)
        | some (.ok Option.none) => some (.ok Option.none)
        | some (.ok (some _)) => some (.ok (some (" is not " ++ typeName t1)))
    | .any => some (.error "[bafser] validate_type: unsupported type")

/-- The `issubclass(otype, JsonObj)` branch of `validate_type` after the
coercion `obj = otype(obj)`: run `obj.validate()`; a nonempty `_exceptions`
raises `JsonParseError(repr(x))` when `r`, otherwise the returned error (which
already reports the exception with priority) is prefixed with a dot. -/
def validateCoerced (env : Env) (dtp : PyVal → Option PyVal) :
    Nat → String → List (String × PyVal) → List (String × String) → Bool →
    Option (Except String (Option String))
  | 0, _, _, _, _ => Option.none
  | Nat.succ f, icls, ifields, iexcs, r =>
    match
      JsonObj.validateLoop env dtp f (getSchema env icls)
        (getSchema env icls).fields ifields iexcs with
    | Option.none => Option.none
    | some (.error x) => some (.error x)
    | some (.ok (err, excs2)) =>
      match excs2 with
      | (_, x) :: _ =>
        if r then some (.error x)
        else
          match err with
          | Option.none => some (.ok Option.none)
          | some e => some (.ok (some ("." ++ e)))
      | [] =>
        match err with
        | Option.none => some (.ok Option.none)
        | some e => some (.ok (some ("." ++ e)))

/-- The `enumerate(obj)` loop of the generic-list branch: the first failing
element reports with its index in brackets. -/
def validateList (env : Env) (dtp : PyVal → Option PyVal) :
    Nat → List PyVal → JType → Bool → Nat →
    Option (Except String (Option String))
  | 0, _, _, _, _ => Option.none
  | Nat.succ f, xs, t1, r, i =>
    match xs with
    | [] => some (.ok Option.none)
    | el :: rest =>
      match validate_type env dtp f el t1 r with
      | Option.none => Option.none
      | some (.error x) => some (.error x)
      | some (.ok (some e)) =>
        some (.ok (some ("[" ++ toString i ++ "]" ++ e)))
      | some (.ok Option.none) => validateList env dtp f rest t1 r (i + 1)

/-- The `obj.items()` loop of the generic-dict branch: keys are validated
unless the key type is `Any`, then values unless the value type is `Any`. -/
def validateDict (env : Env) (dtp : PyVal → Option PyVal) :
    Nat → List (String × PyVal) → JType → JType → Bool →
    Option (Except String (Option String))
  | 0, _, _, _, _ => Option.none
  | Nat.succ f, kvs, tk, tv, r =>
    match kvs with
    | [] => some (.ok Option.none)
    | (k1, v1) :: rest =>
      match
        (if isAnyTy tk then some (Except.ok Option.none)
         else validate_type env dtp f (.str k1) tk r) with
      | Option.none => Option.none
      | some (.error x) => some (.error x)
      | some (.ok (some e)) =>
        some (.ok (some (" key \x27" ++ k1 ++ "\x27" ++ e)))
      | some (.ok Option.none) =>
        match
          (if isAnyTy tv then some (Except.ok Option.none)
           else validate_type env dtp f v1 tv r) with
        | Option.none => Option.none
        | some (.error x) => some (.error x)
        | some (.ok (some e)) => some (.ok (some ("." ++ k1 ++ e)))
        | some (.ok Option.none) => validateDict env dtp f rest tk tv r

/-- The union branch: members in declaration order, first success wins; the
precomputed joined-member message is returned when none match. -/
def validateUnion (env : Env) (dtp : PyVal → Option PyVal) :
    Nat → PyVal → List JType → Bool → String →
    Option (Except String (Option String))
  | 0, _, _, _, _ => Option.none
  | Nat.succ f, v, ts, r, msg =>
    match ts with
    | [] => some (.ok (some msg))
    | t1 :: rest =>
      match validate_type env dtp f v t1 r with
      | Option.none => Option.none
      | some (.error x) => some (.error x)
      | some (.ok Option.none) => some (.ok Option.none)
      | some (.ok (some _)) => validateUnion env dtp f v rest r msg

/-- The field loop of `JsonObj.validate()`: `getattr` is outside the
`try` (a missing schema attribute would raise), `validate_type(..., True)`
exceptions are appended to `_exceptions` and the loop continues, the first
returned error breaks. Returns the method's result together with the final
`_exceptions` list. -/
def JsonObj.validateLoop (env : Env) (dtp : PyVal → Option PyVal) :
    Nat → Schema → List Field → List (String × PyVal) →
    List (String × String) →
    Option (Except String ((Option String) × List (String × String)))
  | 0, _, _, _, _ => Option.none
  | Nat.succ f, s, pending, fields, excs =>
    match pending with
    | [] => some (.ok (JsonObj.validateReport s excs Option.none, excs))
    | fd :: rest =>
      match lookupKV fields fd.name with
      | Option.none => some (.error "AttributeError")
      | some v =>
        match validate_type env dtp f v fd.ty true with
        | Option.none => Option.none
        | some (.error x) =>
          JsonObj.validateLoop env dtp f s rest fields (excs ++ [(fd.name, x)])
        | some (.ok Option.none) =>
          JsonObj.validateLoop env dtp f s rest fields excs
        | some (.ok (some e)) =>
          some (.ok (JsonObj.validateReport s excs (some (fd.name ++ e)), excs))
end

/-- JsonObj.validate() on an instance: the error string, `Option.none` inside
the `.ok` meaning valid. -/
def JsonObj.validate (env : Env) (dtp : PyVal → Option PyVal) (fuel : Nat)
    (v : PyVal) : Option (Except String (Option String)) :=
  match v with
  | .inst cls fields excs =>
    match
      JsonObj.validateLoop env dtp fuel (getSchema env cls)
        (getSchema env cls).fields fields excs with
    | Option.none => Option.none
    | some (.error x) => some (.error x)
    | some (.ok (err, _)) => some (.ok err)
  | _ => some (.error "TypeError")

/-- The classmethod `JsonObj.parse(data)`: `json.loads` (modelled as the
oracle `loads`; a raised decode error is `Option.none`) with the `except`
branch substituting the empty object. -/
def JsonObj.parse (env : Env) (dtp : PyVal → Option PyVal) (cls : String)
    (loads : String → Option PyVal) (data : String) : PyVal :=
  match loads data with
  | some o => JsonObj.init env dtp cls o
  | Option.none => JsonObj.init env dtp cls (.dict [])

/-- A node of the documentation tree produced by the doc exporter: a flat
string, a one-element list (`return [r]`), or a rendered record shape. -/
inductive Doc where
  | str (s : String)
  | one (d : Doc)
  | node (kvs : List (String × Doc))

/-- The shared type table `_types` (insertion-ordered, keyed by type name). -/
abbrev DocTable := List (String × Doc)

def tmem (types : DocTable) (k : String) : Bool :=
  (types.find? (fun p => p.1 == k)).isSome

/-- `types[k] = d`: replace in place when present, append otherwise. -/
def tset (types : DocTable) (k : String) (d : Doc) : DocTable :=
  if tmem types k then types.map (fun p => if p.1 == k then (k, d) else p)
  else types ++ [(k, d)]

mutual
/-- Modelled from the spec: the helper `type_name(otype, json=True)`, which
`doc_api.py` imports from the json layer but which is absent from the sources
here. Per §3/§4.6 of the spec: a named record type renders as a name-only
pointer; primitives render as their JSON kind; a list appends `[]`; union
members join into a `(member1|member2)`-style string. -/
def type_name : JType → String
  | .int => "number"
  | .float => "number"
  | .bool => "boolean"
  | .str => "string"
  | .nul => "null"
  | .datetime => "datetime"
  | .record cls => cls
  | .list t => type_name t ++ "[]"
  | .dict tk tv => "dict[" ++ type_name tk ++ "," ++ type_name tv ++ "]"
  | .union ts => String.intercalate "|" (type_nameL ts)
  | .opt t => type_name t
  | .object => "object"
  | .any => "Any"

def type_nameL : List JType → List String
  | [] => []
  | t :: ts => type_name t :: type_nameL ts
end

mutual
/-- doc_api.type_to_json, fuelled: primitives render inline; the list branch
renders its element verbosely and wraps unions in parentheses; dict and union
branches register their member types into the table and return the flat name;
a record type not yet in the table (and not at top level) first stores a
placeholder, then recurses into itself and overwrites the placeholder — the
recursion guard for self-referential records. A bare `JsonOpt[...]` alias
reaches the fallback `return type_name(otype)` (both introspection attempts
raise on it); `datetime` reaches the record path with empty hints. -/
def type_to_json (env : Env) :
    Nat → JType → DocTable → Bool → Bool → Option (Doc × DocTable)
  | 0, _, _, _, _ => Option.none
  | Nat.succ f, t, types, verbose, toplvl =>
    match t with
    | .int => some (.str "number", types)
    | .float => some (.str "number", types)
    | .bool => some (.str "boolean", types)
    | .str => some (.str "string", types)
    | .nul => some (.str "null", types)
    | .list t1 =>
      match type_to_json env f t1 types true false with
      | Option.none => Option.none
      | some (.str s1, types1) =>
        if isUnionTy t1 then some (.str ("(" ++ s1 ++ ")[]"), types1)
        else some (.str (s1 ++ "[]"), types1)
      | some (d, types1) =>
        if verbose then some (.one d, types1)
        else some (.str (type_name t), types1)
    | .dict _ tv =>
      match type_to_json env f tv types false false with
      | Option.none => Option.none
      | some (_, types1) => some (.str (type_name t), types1)
    | .union ts =>
      match docWalkUnion env f ts types with
      | Option.none => Option.none
      | some types1 => some (.str (type_name t), types1)
    | .record cls =>
      match
        (if !toplvl && !(tmem types cls) && cls != "dict" then
          match type_to_json env f t (tset types cls (.node [])) true false with
          | Option.none => Option.none
          | some (d, types1) => some (tset types1 cls d)
        else some types) with
      | Option.none => Option.none
      | some types2 =>
        if !verbose then some (.str (type_name t), types2)
        else
          match docWalkFields env f (getSchema env cls).fields types2 with
          | Option.none => Option.none
          | some (ds, types3) => some (.node ds, types3)
    | .datetime =>
      match
        (if !toplvl && !(tmem types "datetime") then
          match
            type_to_json env f t (tset types "datetime" (.node [])) true
              false with
          | Option.none => Option.none
          | some (d, types1) => some (tset types1 "datetime" d)
        else some types) with
      | Option.none => Option.none
      | some types2 =>
        if !verbose then some (.str (type_name t), types2)
        else some (.node [], types2)
    | .opt _ => some (.str (type_name t), types)
    | .object => some (.str (type_name t), types)
    | .any => some (.str (type_name t), types)

/-- The union branch's member walk (side effect: registers member types). -/
def docWalkUnion (env : Env) :
    Nat → List JType → DocTable → Option DocTable
  | 0, _, _ => Option.none
  | Nat.succ f, ts, types =>
    match ts with
    | [] => some types
    | t1 :: rest =>
      match type_to_json env f t1 types false false with
      | Option.none => Option.none
      | some (_, types1) => docWalkUnion env f rest types1

/-- The field loop of the record branch: optional fields get a `?` suffix on
the key, field types render non-verbosely. -/
def docWalkFields (env : Env) :
    Nat → List Field → DocTable → Option (List (String × Doc) × DocTable)
  | 0, _, _ => Option.none
  | Nat.succ f, fds, types =>
    match fds with
    | [] => some ([], types)
    | fd :: rest =>
      match type_to_json env f (stripOpt fd.ty) types false false with
      | Option.none => Option.none
      | some (d, types1) =>
        match docWalkFields env f rest types1 with
        | Option.none => Option.none
        | some (ds, types2) =>
          some ((fd.name ++ (if isOptTy fd.ty then "?" else ""), d) :: ds,
            types2)
end

/-- Uniqueness of a key list, as a computable check. -/
def nodupKeysB : List String → Bool
  | [] => true
  | k :: rest => !(rest.contains k) && nodupKeysB rest

/-- Uniqueness of a schema's field names. -/
def nodupNamesB (fds : List Field) : Bool :=
  nodupKeysB (fds.map Field.name)

/-- Well-formed environment: every registered schema has distinct field
names (Python class dicts guarantee this). -/
def EnvWF (env : Env) : Bool :=
  env.all (fun p => nodupNamesB p.2.fields)

/-- Schema fields without a corresponding input key must be optional and
have no class-level default. -/
def absentOk (s : Schema) (kvs : List (String × PyVal)) : Bool :=
  s.fields.all
    (fun f => (lookupKV kvs f.name).isSome || (isOptTy f.ty && f.dflt.isNone))

mutual
/-- Values that can come out of the JSON decoder: no instances, no undefined,
no datetimes; object keys are unique (Python dicts). -/
def isJson : PyVal → Bool
  | .null => true
  | .bool _ => true
  | .int _ => true
  | .float _ => true
  | .str _ => true
  | .datetime _ => false
  | .list xs => isJsonL xs
  | .dict kvs => nodupKeysB (kvs.map Prod.fst) && isJsonD kvs
  | .inst _ _ _ => false
  | .undef => false

def isJsonL : List PyVal → Bool
  | [] => true
  | x :: rest => isJson x && isJsonL rest

def isJsonD : List (String × PyVal) → Bool
  | [] => true
  | p :: rest => isJson p.2 && isJsonD rest
end

mutual
/-- Structural equality of two values in the sense of Python `==`: dicts
compare by key set and per-key values (insertion order is irrelevant), lists
elementwise, primitives by payload. Instances compare by identity in Python,
so distinct occurrences are conservatively unequal (serialized output never
contains instances). -/
def jeq : PyVal → PyVal → Bool
  | .null, .null => true
  | .bool a, .bool b => a == b
  | .int a, .int b => a == b
  | .float a, .float b => a == b
  | .str a, .str b => a == b
  | .datetime a, .datetime b => a == b
  | .undef, .undef => true
  | .list xs, .list ys => jeqL xs ys
  | .dict a, .dict b => a.length == b.length && jeqD a b
  | _, _ => false

def jeqL : List PyVal → List PyVal → Bool
  | [], [] => true
  | x :: xs, y :: ys => jeq x y && jeqL xs ys
  | _, _ => false

/-- Every entry of the first dict is present in the second with an equal
value (with the length check and unique keys this is Python dict equality). -/
def jeqD : List (String × PyVal) → List (String × PyVal) → Bool
  | [], _ => true
  | (k, v) :: rest, b =>
    (match lookupKV b k with
     | some w => jeq v w
     | Option.none => false)
    && jeqD rest b
end

mutual
/-- Whether a raw JSON value structurally matches a declared type, the
precondition of the round-trip property (§8 of the spec: "valid input
matching its schema exactly"). A record matches a JSON object whose keys are
all schema fields with matching values and whose absent fields are optional
without a class default (an absent defaulted field is re-emitted by
serialization, so it is not an exact match); `datetime` matches no JSON
value (no JSON value is a datetime instance); `object` matches any JSON
value; an `Any` field is a schema error, so nothing matches it. -/
def matchesVal (env : Env) : JType → PyVal → Bool
  | .int, .int _ => true
  | .float, .float _ => true
  | .bool, .bool _ => true
  | .str, .str _ => true
  | .nul, .null => true
  | .object, v => isJson v
  | .record cls, .dict kvs =>
    nodupKeysB (kvs.map Prod.fst) && matchesKVs env (getSchema env cls) kvs
      && absentOk (getSchema env cls) kvs
  | .list t1, .list xs => matchesL env t1 xs
  | .dict _ _, .dict kvs => isJson (.dict kvs)
  | .union ts, v => isJson v && matchesAny env ts v
  | .opt t1, v => matchesVal env t1 v
  | _, _ => false
  termination_by t v => (sizeOf v, sizeOf t)

/-- Every present key is a schema field and its value matches the field's
declared type. -/
def matchesKVs (env : Env) (s : Schema) : List (String × PyVal) → Bool
  | [] => true
  | (k, w) :: rest =>
    (match hintOf s k with
     | some t => matchesVal env t w
     | Option.none => false)
    && matchesKVs env s rest
  termination_by kvs => (sizeOf kvs, 0)

def matchesL (env : Env) (t1 : JType) : List PyVal → Bool
  | [] => true
  | x :: rest => matchesVal env t1 x && matchesL env t1 rest
  termination_by xs => (sizeOf xs, sizeOf t1 + 1)

def matchesAny (env : Env) : List JType → PyVal → Bool
  | [], _ => false
  | t :: ts, v => matchesVal env t v || matchesAny env ts v
  termination_by ts v => (sizeOf v, sizeOf ts)
end

/-- A raw JSON value exactly matching the schema of class `cls`. -/
def matchesInst (env : Env) (cls : String) (v : PyVal) : Bool :=
  matchesVal env (.record cls) v

/-- The round-trip contract of one parsed value against its source value:
it is not the absence marker, its serialization is not the absence marker
(so it is emitted, not elided), and its serialization is structurally equal
to the source value. -/
@[reducible]
def RTgood (dts : String → PyVal) (k : String) (pv w : PyVal) : Prop :=
  isUndef pv = false
  ∧ isUndef (JsonObj.serializeItem dts k pv).2 = false
  ∧ jeq (JsonObj.serializeItem dts k pv).2 w = true

/-- A datetime parser that never converts (concrete instantiations below do
not involve datetime fields). -/
def dtp0 : PyVal → Option PyVal := fun _ => Option.none

/-- A datetime serializer for the concrete instantiations. -/
def dts0 : String → PyVal := fun iso => .str iso

/-- The schema of §8's partial-failure scenario: two required int fields. -/
def envAB : Env :=
  [("AB", ⟨[⟨"a", .int, Option.none⟩, ⟨"b", .int, Option.none⟩]⟩)]

def inputAB : PyVal := .dict [("a", .str "bad-int"), ("b", .int 5)]

/-- The schema of §8's depth-prefixed-error scenario:
`objs: list[{name: string}]`. -/
def envObjs : Env :=
  [("Main", ⟨[⟨"objs", .list (.record "Obj"), Option.none⟩]⟩),
   ("Obj", ⟨[⟨"name", .str, Option.none⟩]⟩)]

def inputObjs : PyVal := .dict [("objs", .list [.dict [("name", .int 123)]])]

/-- The schema of §8's default-application scenario:
`name: string = "anonym"`. -/
def envNamed : Env :=
  [("Named", ⟨[⟨"name", .str, some (.str "anonym")⟩]⟩)]

/-- A self-referential record (a field of its own type), as in §8's
self-reference-termination scenario. -/
def envRec : Env :=
  [("Rec",
    ⟨[⟨"some", .opt (.record "Rec"), Option.none⟩,
      ⟨"value", .int, Option.none⟩]⟩)]

def isDict : PyVal → Bool
  | .dict _ => true
  | _ => false

def isPrimitiveTy : JType → Bool
  | .int => true
  | .float => true
  | .bool => true
  | .str => true
  | .nul => true
  | .object => true
  | _ => false

theorem contains_iff_memS {l : List String} {k : String} :
    l.contains k = true ↔ k ∈ l := by
  simp [List.contains, List.elem_iff]

theorem lookupKV_isSome_iff {kvs : List (String × PyVal)} {k : String} :
    (lookupKV kvs k).isSome = true ↔ k ∈ kvs.map Prod.fst := by
  induction kvs with
  | nil => simp [lookupKV]
  | cons p rest ih =>
    by_cases h : p.1 = k
    · simp [lookupKV, h]
    · simp [lookupKV, h, ih, beq_iff_eq, Ne.symm h]

theorem lookupKV_mem {kvs : List (String × PyVal)} {k : String} {w : PyVal}
    (h : lookupKV kvs k = some w) : (k, w) ∈ kvs := by
  induction kvs with
  | nil => simp [lookupKV] at h
  | cons p rest ih =>
    rcases p with ⟨k1, v1⟩
    by_cases hk : k1 = k
    · subst hk
      simp only [lookupKV] at h
      simp only [beq_self_eq_true, if_true, Option.some.injEq] at h
      subst h
      exact List.mem_cons_self _ _
    · simp only [lookupKV, beq_iff_eq, hk, if_false] at h
      exact List.mem_cons_of_mem _ (ih h)

theorem setField_names (fields : List (String × PyVal)) (k : String)
    (v : PyVal) : (setField fields k v).map Prod.fst = fields.map Prod.fst := by
  induction fields with
  | nil => rfl
  | cons p rest ih =>
    by_cases h : p.1 = k
    · simp [setField, h, beq_iff_eq] at ih ⊢
      exact ih
    · simp [setField, h, beq_iff_eq] at ih ⊢
      exact ih

theorem parseFields_names (env : Env) (dtp : PyVal → Option PyVal)
    (s : Schema) (pending : List (String × PyVal))
    (fields : List (String × PyVal)) :
    (JsonObj.parseFields env dtp s pending fields).map Prod.fst
      = fields.map Prod.fst := by
  induction pending generalizing fields with
  | nil => simp [JsonObj.parseFields]
  | cons p rest ih =>
    rcases p with ⟨k, v⟩
    rcases hk : hintOf s k with _ | t0
    · simp [JsonObj.parseFields, hk, ih]
    · simp [JsonObj.parseFields, hk, ih, setField_names]

theorem initFields_names (s : Schema) :
    (initFields s).map Prod.fst = s.fields.map Field.name := by
  simp [initFields]

theorem initFields_lookup {s : Schema} (hnd : nodupNamesB s.fields = true)
    {fd : Field} (hm : fd ∈ s.fields) :
    lookupKV (initFields s) fd.name = some (fd.dflt.getD PyVal.undef) := by
  rcases s with ⟨fds⟩
  induction fds with
  | nil => simp at hm
  | cons f rest ih =>
    simp only [nodupNamesB, List.map_cons, nodupKeysB, Bool.and_eq_true,
      Bool.not_eq_true'] at hnd
    rcases List.mem_cons.mp hm with he | hm2
    · subst he
      simp [initFields, lookupKV]
    · have hne : f.name ≠ fd.name := by
        intro he
        have : fd.name ∈ rest.map Field.name :=
          List.mem_map.mpr ⟨fd, hm2, rfl⟩
        rw [he] at hnd
        have := contains_iff_memS.mpr this
        rw [hnd.1] at this
        cases this
      have := ih (by simpa [nodupNamesB] using hnd.2) hm2
      simpa [initFields, lookupKV, hne, beq_iff_eq] using this

/-- C2 (counterexample): parsing `{"a": "bad-int", "b": 5}` against the
schema `{a: int, b: int}` with no hooks records NO Parse Exception at all —
the `_exceptions` list of the produced instance is empty, contradicting the
claim that field `a` carries a recorded Parse Exception. (With the default
`_parse` hook, the hook's `try/except` — the only append site during
parsing — never fires; the raw string is simply kept in the field.) -/
theorem C2_no_recorded_exception :
    JsonObj.excsOf (JsonObj.init envAB dtp0 "AB" inputAB) = [] := by rfl

/-- C2 (amended): parsing `{"a": "bad-int", "b": 5}` against `{a: int,
b: int}` with no hooks yields `b = 5` and `a` keeping the raw string
`"bad-int"`; no Parse Exception is recorded, and the mismatch surfaces as the
ordinary validation error `"a is not int"` when `validate` is invoked
(parsing itself reports nothing). -/
theorem C2_partial_failure_tolerance :
    lookupKV (JsonObj.fieldsOf (JsonObj.init envAB dtp0 "AB" inputAB)) "b"
        = some (.int 5)
    ∧ lookupKV (JsonObj.fieldsOf (JsonObj.init envAB dtp0 "AB" inputAB)) "a"
        = some (.str "bad-int")
    ∧ JsonObj.excsOf (JsonObj.init envAB dtp0 "AB" inputAB) = []
    ∧ JsonObj.validate envAB dtp0 10 (JsonObj.init envAB dtp0 "AB" inputAB)
        = some (.ok (some "a is not int")) :=
  ⟨rfl, rfl, rfl, rfl⟩

/-- C3: union members are tried in declaration order and the first
structural success wins: whenever the head member validates a value, the
whole union validates it (whatever the remaining members are, so the later
members are never consulted), deterministically. Fuel bookkeeping: the union
branch spends one step entering `validate_type` and one entering the member
loop. -/
theorem C3_union_first_match (env : Env) (dtp : PyVal → Option PyVal)
    (f : Nat) (v : PyVal) (t1 : JType) (rest : List JType) (r : Bool)
    (h : validate_type env dtp f v t1 r = some (.ok Option.none)) :
    validate_type env dtp (f + 2) v (.union (t1 :: rest)) r
      = some (.ok Option.none) := by
  show validate_type env dtp (Nat.succ (Nat.succ f)) v (.union (t1 :: rest)) r
    = some (.ok Option.none)
  simp [validate_type, validateUnion, h]

/-- C3 witness: `7` is structurally valid for both `int` and `object`;
validating it against `int | object` succeeds (via the first member). -/
theorem C3_union_first_match_witness :
    validate_type [] dtp0 1 (.int 7) .int false = some (.ok Option.none)
    ∧ validate_type [] dtp0 1 (.int 7) .object false = some (.ok Option.none)
    ∧ validate_type [] dtp0 3 (.int 7) (.union [.int, .object]) false
        = some (.ok Option.none) :=
  ⟨rfl, rfl, C3_union_first_match [] dtp0 1 (.int 7) .int [.object] false rfl⟩

/-- C4: a boolean validates against a declared primitive type if and only if
that primitive is `bool`: the `type(obj) is bool` pre-check in the simple-type
branch of `validate_type` skips the `isinstance` chain, so booleans are
rejected by `int`, `float`, `str`, `None` and even `object`, although Python
treats `bool` as a subclass of `int`. -/
theorem C4_bool_validates_only_bool (env : Env) (dtp : PyVal → Option PyVal)
    (f : Nat) (b : Bool) (r : Bool) (t : JType)
    (hp : isPrimitiveTy t = true) :
    (validate_type env dtp (f + 1) (.bool b) t r = some (.ok Option.none)
      ↔ t = .bool) := by
  cases t <;>
    simp_all [isPrimitiveTy, validate_type, validateSimple, typeName]

/-- C4 witness: instantiated at the primitive `int` (where Python itself
would accept `isinstance(True, int)`). -/
theorem C4_bool_validates_only_bool_witness :
    isPrimitiveTy .int = true
    ∧ (validate_type [] dtp0 1 (.bool true) .int false
          = some (.ok Option.none)
        ↔ JType.int = .bool) :=
  ⟨rfl, C4_bool_validates_only_bool [] dtp0 0 true false .int rfl⟩

/-- C5 (counterexample): validating `{"objs":[{"name":123}]}` against
`objs: list[{name: string}]` does NOT produce the error string
`"objs[0].name is not string"`: the reason text comes from
`type_names.get(otype, otype.__name__)` and `type_names` maps only
`NoneType`, so the `str` leaf reads `"str"`, not `"string"`. -/
theorem C5_error_path_not_string :
    ¬ (JsonObj.validate envObjs dtp0 10
          (JsonObj.init envObjs dtp0 "Main" inputObjs)
        = some (.ok (some "objs[0].name is not string"))) := by
  rw [show JsonObj.validate envObjs dtp0 10
        (JsonObj.init envObjs dtp0 "Main" inputObjs)
      = some (.ok (some "objs[0].name is not str")) from rfl]
  simp

/-- C5 (amended): validating `{"objs":[{"name":123}]}` against
`objs: list[{name: string}]` yields exactly the error
`"objs[0].name is not str"` — the path is built right-to-left as claimed
(field name, list index in brackets, dotted nested field, reason), but the
reason text uses the Python type name `str`. -/
theorem C5_error_path :
    JsonObj.validate envObjs dtp0 10
        (JsonObj.init envObjs dtp0 "Main" inputObjs)
      = some (.ok (some "objs[0].name is not str")) := by rfl

/-- C6 (counterexample): on a non-dict input, a schema field with a
class-level default is NOT set to the absence marker: `__init__` only
assigns `undefined` to hints for which `hasattr(self, k)` is false, and a
class default makes `hasattr` true. Parsing the non-object `5` against the
schema `name: str = "anonym"` leaves `name` at `"anonym"`. -/
theorem C6_default_not_undefined :
    lookupKV (JsonObj.fieldsOf (JsonObj.init envNamed dtp0 "Named"
        (.int 5))) "name" = some (.str "anonym")
    ∧ PyVal.str "anonym" ≠ PyVal.undef :=
  ⟨rfl, by simp⟩

/-- C6 (amended): for every raw input that is not a structural JSON object,
`JsonObj.__init__` (a total function here — it never throws) returns an
instance in which every schema field holds its class-level default if one
exists, and the absence marker `undefined` otherwise. -/
theorem C6_nondict_all_defaults (env : Env) (dtp : PyVal → Option PyVal)
    (cls : String) (v : PyVal) (hv : isDict v = false)
    (hnd : nodupNamesB (getSchema env cls).fields = true) :
    ∀ fd ∈ (getSchema env cls).fields,
      lookupKV (JsonObj.fieldsOf (JsonObj.init env dtp cls v)) fd.name
        = some (fd.dflt.getD PyVal.undef) := by
  intro fd hm
  have hdata : JsonObj.initData env dtp cls v = initFields (getSchema env cls) := by
    cases v <;> simp_all [JsonObj.initData, isDict]
  simp only [JsonObj.init, JsonObj.fieldsOf, hdata]
  exact initFields_lookup hnd hm

/-- C6 witness: the non-dict input `5` against the schema
`name: str = "anonym"`. -/
theorem C6_nondict_all_defaults_witness :
    isDict (PyVal.int 5) = false
    ∧ nodupNamesB (getSchema envNamed "Named").fields = true
    ∧ lookupKV (JsonObj.fieldsOf (JsonObj.init envNamed dtp0 "Named"
        (.int 5))) "name" = some ((some (PyVal.str "anonym")).getD PyVal.undef) :=
  ⟨rfl, rfl,
    C6_nondict_all_defaults envNamed dtp0 "Named" (.int 5) rfl rfl
      ⟨"name", .str, some (.str "anonym")⟩ (List.mem_cons_self _ _)⟩

/-- C7: parsing `{}` against the schema `name: str = "anonym"` yields an
instance whose `name` is `"anonym"` (the class default, kept by the
`hasattr` guard), and the default is not treated as the absence marker:
`json()` emits the key with the default value instead of eliding it. -/
theorem C7_default_applied_and_serialized :
    lookupKV (JsonObj.fieldsOf (JsonObj.init envNamed dtp0 "Named"
        (.dict []))) "name" = some (.str "anonym")
    ∧ JsonObj.json dts0 (JsonObj.init envNamed dtp0 "Named" (.dict []))
        = .dict [("name", .str "anonym")] :=
  ⟨rfl, rfl⟩

/-- C8: the doc export of a record type with a field of its own type
(`some: JsonOpt[Rec]`) terminates — it completes within a recursion budget
of 10 steps — and the shared type table ends up with exactly one named entry
for the type, whose self-referential field renders as the name-only pointer
`"Rec"` rather than an infinitely nested structure. The placeholder inserted
before the recursion into the record's fields is what stops the descent. -/
theorem C8_self_reference_terminates :
    type_to_json envRec 10 (.record "Rec") [] true true
      = some (.node [("some?", .str "Rec"), ("value", .str "number")],
          [("Rec", .node [("some?", .str "Rec"), ("value", .str "number")])])
    := by rfl

/-- C9: after `__init__` returns — for any input, dict or not — the
instance's attribute list covers exactly the schema's field names, in
`_type_hints` order: every schema field has an assigned value (a parsed
value, a class default, or `undefined`), so `items()`, `dict()` and `json()`
never hit a missing attribute. -/
theorem C9_every_field_assigned (env : Env) (dtp : PyVal → Option PyVal)
    (cls : String) (v : PyVal) :
    (JsonObj.fieldsOf (JsonObj.init env dtp cls v)).map Prod.fst
        = (getSchema env cls).fields.map Field.name
    ∧ ∀ fd ∈ (getSchema env cls).fields,
        (lookupKV (JsonObj.fieldsOf (JsonObj.init env dtp cls v))
          fd.name).isSome = true := by
  have hnames : (JsonObj.fieldsOf (JsonObj.init env dtp cls v)).map Prod.fst
      = (getSchema env cls).fields.map Field.name := by
    cases v <;>
      simp [JsonObj.init, JsonObj.fieldsOf, JsonObj.initData,
        parseFields_names, initFields_names]
  refine ⟨hnames, fun fd hm => ?_⟩
  rw [lookupKV_isSome_iff, hnames]
  exact List.mem_map.mpr ⟨fd, hm, rfl⟩

/-- C10: `JsonObj.parse` on a string that the JSON decoder rejects never
raises (the `except` branch substitutes `{}`): it returns exactly the
instance built from the empty object, and every schema field without a
class-level default is the absence marker `undefined`. -/
theorem C10_parse_invalid_json (env : Env) (dtp : PyVal → Option PyVal)
    (cls : String) (loads : String → Option PyVal) (data : String)
    (h : loads data = Option.none)
    (hnd : nodupNamesB (getSchema env cls).fields = true) :
    JsonObj.parse env dtp cls loads data = JsonObj.init env dtp cls (.dict [])
    ∧ ∀ fd ∈ (getSchema env cls).fields, fd.dflt = Option.none →
        lookupKV (JsonObj.fieldsOf (JsonObj.parse env dtp cls loads data))
          fd.name = some PyVal.undef := by
  have heq : JsonObj.parse env dtp cls loads data
      = JsonObj.init env dtp cls (.dict []) := by
    simp [JsonObj.parse, h]
  refine ⟨heq, fun fd hm hdf => ?_⟩
  rw [heq]
  have : JsonObj.fieldsOf (JsonObj.init env dtp cls (.dict []))
      = initFields (getSchema env cls) := by
    simp [JsonObj.init, JsonObj.fieldsOf, JsonObj.initData,
      JsonObj.parseFields]
  rw [this]
  have := initFields_lookup hnd hm
  rw [hdf] at this
  exact this

/-- C10 witness: a decoder failure on `"not json"` against the `{a: int,
b: int}` schema (no defaults) leaves both fields undefined. -/
theorem C10_parse_invalid_json_witness :
    ((fun _ => Option.none : String → Option PyVal) "not json" = Option.none)
    ∧ nodupNamesB (getSchema envAB "AB").fields = true
    ∧ lookupKV (JsonObj.fieldsOf (JsonObj.parse envAB dtp0 "AB"
        (fun _ => Option.none) "not json")) "a" = some PyVal.undef :=
  ⟨rfl, rfl,
    (C10_parse_invalid_json envAB dtp0 "AB" (fun _ => Option.none) "not json"
        rfl rfl).2
      ⟨"a", .int, Option.none⟩ (List.mem_cons_self _ _) rfl⟩

theorem serializeItem_fst (dts : String → PyVal) (k : String) (v : PyVal) :
    (JsonObj.serializeItem dts k v).1 = k := by
  cases v <;> simp [JsonObj.serializeItem]

theorem isJsonL_iff {xs : List PyVal} :
    isJsonL xs = true ↔ ∀ x ∈ xs, isJson x = true := by
  induction xs with
  | nil => simp [isJsonL]
  | cons x rest ih => simp [isJsonL, ih]

theorem isJsonD_iff {kvs : List (String × PyVal)} :
    isJsonD kvs = true ↔ ∀ p ∈ kvs, isJson p.2 = true := by
  induction kvs with
  | nil => simp [isJsonD]
  | cons p rest ih => simp [isJsonD, ih]

theorem matchesL_iff {env : Env} {t1 : JType} {xs : List PyVal} :
    matchesL env t1 xs = true ↔ ∀ x ∈ xs, matchesVal env t1 x = true := by
  induction xs with
  | nil => simp [matchesL]
  | cons x rest ih =>
    rw [matchesL]
    simp [ih]

theorem matchesKVs_forall {env : Env} {s : Schema}
    {kvs : List (String × PyVal)} (h : matchesKVs env s kvs = true) :
    ∀ p ∈ kvs, ∃ t, hintOf s p.1 = some t ∧ matchesVal env t p.2 = true := by
  induction kvs with
  | nil => simp
  | cons p rest ih =>
    rw [matchesKVs] at h
    rcases Bool.and_eq_true_iff.mp h with ⟨h1, h2⟩
    intro q hq
    rcases List.mem_cons.mp hq with he | hm
    · subst he
      rcases hh : hintOf s q.1 with _ | t
      · rw [hh] at h1
        cases h1
      · rw [hh] at h1
        exact ⟨t, rfl, h1⟩
    · exact ih h2 q hm

theorem matches_ne_undef (env : Env) (t : JType) (v : PyVal)
    (h : matchesVal env t v = true) : isUndef v = false := by
  match t with
  | .opt t1 =>
    rw [matchesVal] at h
    exact matches_ne_undef env t1 v h
  | .object =>
    cases v <;> simp_all [matchesVal, isJson, isUndef]
  | .union ts =>
    cases v <;> simp_all [matchesVal, isJson, isUndef]
  | .int | .float | .bool | .str | .nul | .datetime | .any
  | .record _ | .list _ | .dict _ _ =>
    cases v <;> simp_all [matchesVal, isUndef]
termination_by sizeOf t

theorem absentOk_forall {s : Schema} {kvs : List (String × PyVal)}
    (h : absentOk s kvs = true) :
    ∀ fd ∈ s.fields, lookupKV kvs fd.name = Option.none →
      isOptTy fd.ty = true ∧ fd.dflt = Option.none := by
  intro fd hm habs
  have := (List.all_eq_true.mp h) fd hm
  rw [habs] at this
  simp at this
  exact ⟨this.1, Option.isNone_iff_eq_none.mp (by simp [this.2])⟩

theorem nodupNamesB_hintOf {s : Schema} (hnd : nodupNamesB s.fields = true)
    {fd : Field} (hm : fd ∈ s.fields) : hintOf s fd.name = some fd.ty := by
  rcases s with ⟨fds⟩
  induction fds with
  | nil => simp at hm
  | cons f rest ih =>
    simp only [nodupNamesB, List.map_cons, nodupKeysB, Bool.and_eq_true,
      Bool.not_eq_true'] at hnd
    rcases List.mem_cons.mp hm with he | hm2
    · subst he
      simp [hintOf, findTy]
    · have hne : f.name ≠ fd.name := by
        intro he
        have : fd.name ∈ rest.map Field.name :=
          List.mem_map.mpr ⟨fd, hm2, rfl⟩
        rw [he] at hnd
        have := contains_iff_memS.mpr this
        rw [hnd.1] at this
        cases this
      have := ih (by simpa [nodupNamesB] using hnd.2) hm2
      simpa [hintOf, findTy, hne, beq_iff_eq] using this

theorem hintOf_mem {s : Schema} {k : String} {t : JType}
    (h : hintOf s k = some t) : ∃ fd ∈ s.fields, fd.name = k ∧ fd.ty = t := by
  rcases s with ⟨fds⟩
  induction fds with
  | nil => simp [hintOf, findTy] at h
  | cons f rest ih =>
    by_cases he : f.name = k
    · simp only [hintOf, findTy, he, beq_self_eq_true, if_true,
        Option.some.injEq] at h
      exact ⟨f, List.mem_cons_self _ _, he, h⟩
    · simp only [hintOf, findTy, beq_iff_eq, he, if_false] at h
      rcases ih h with ⟨fd, hm, hn, ht⟩
      exact ⟨fd, List.mem_cons_of_mem _ hm, hn, ht⟩

theorem EnvWF_nodup {env : Env} (h : EnvWF env = true) (cls : String) :
    nodupNamesB (getSchema env cls).fields = true := by
  rcases hf : env.find? (fun p => p.1 == cls) with _ | p
  · simp [getSchema, hf, nodupNamesB, nodupKeysB]
  · have hm := List.mem_of_find?_eq_some hf
    have := (List.all_eq_true.mp h) p hm
    simpa [getSchema, hf] using this

theorem lookupKV_of_mem_nodup {kvs : List (String × PyVal)} {k : String}
    {w : PyVal} (hnd : nodupKeysB (kvs.map Prod.fst) = true)
    (hm : (k, w) ∈ kvs) : lookupKV kvs k = some w := by
  induction kvs with
  | nil => simp at hm
  | cons p rest ih =>
    simp only [List.map_cons, nodupKeysB, Bool.and_eq_true,
      Bool.not_eq_true'] at hnd
    rcases List.mem_cons.mp hm with he | hm2
    · rw [← he]
      simp [lookupKV]
    · have hne : p.1 ≠ k := by
        intro he
        have : k ∈ rest.map Prod.fst := List.mem_map.mpr ⟨(k, w), hm2, rfl⟩
        rw [he] at hnd
        have := contains_iff_memS.mpr this
        rw [hnd.1] at this
        cases this
      simp only [lookupKV, beq_iff_eq, hne, if_false]
      exact ih hnd.2 hm2

theorem matches_isJson (env : Env) (t : JType) (v : PyVal)
    (h : matchesVal env t v = true) : isJson v = true := by
  match t, v with
  | .int, v => cases v <;> simp_all [matchesVal, isJson]
  | .float, v => cases v <;> simp_all [matchesVal, isJson]
  | .bool, v => cases v <;> simp_all [matchesVal, isJson]
  | .str, v => cases v <;> simp_all [matchesVal, isJson]
  | .nul, v => cases v <;> simp_all [matchesVal, isJson]
  | .datetime, v => cases v <;> simp_all [matchesVal]
  | .any, v => cases v <;> simp_all [matchesVal]
  | .object, v => rw [matchesVal] at h; exact h
  | .union ts, v =>
    rw [matchesVal] at h
    exact (Bool.and_eq_true_iff.mp h).1
  | .opt t1, v =>
    rw [matchesVal] at h
    exact matches_isJson env t1 v h
  | .dict tk tv, v =>
    cases v <;> simp_all [matchesVal, isJson]
  | .record cls, .dict kvs =>
    rw [matchesVal] at h
    rcases Bool.and_eq_true_iff.mp h with ⟨h12, _⟩
    rcases Bool.and_eq_true_iff.mp h12 with ⟨hnd, hkv⟩
    have hall : ∀ p ∈ kvs, isJson p.2 = true := by
      intro p hp
      rcases p with ⟨k1, w⟩
      rcases matchesKVs_forall hkv ⟨k1, w⟩ hp with ⟨t2, _, hm2⟩
      have hsz : sizeOf w < sizeOf kvs := by
        have h1 := List.sizeOf_lt_of_mem hp
        simp only [Prod.mk.sizeOf_spec] at h1
        omega
      exact matches_isJson env t2 w hm2
    simp [isJson, hnd, isJsonD_iff.mpr hall]
  | .record cls, .null => simp [matchesVal] at h
  | .record cls, .bool _ => simp [matchesVal] at h
  | .record cls, .int _ => simp [matchesVal] at h
  | .record cls, .float _ => simp [matchesVal] at h
  | .record cls, .str _ => simp [matchesVal] at h
  | .record cls, .datetime _ => simp [matchesVal] at h
  | .record cls, .list _ => simp [matchesVal] at h
  | .record cls, .inst _ _ _ => simp [matchesVal] at h
  | .record cls, .undef => simp [matchesVal] at h
  | .list t1, .list xs =>
    rw [matchesVal] at h
    have hall : ∀ x ∈ xs, isJson x = true := by
      intro x hx
      have hsz := List.sizeOf_lt_of_mem hx
      exact matches_isJson env t1 x (matchesL_iff.mp h x hx)
    simp [isJson, isJsonL_iff.mpr hall]
  | .list t1, .null => simp [matchesVal] at h
  | .list t1, .bool _ => simp [matchesVal] at h
  | .list t1, .int _ => simp [matchesVal] at h
  | .list t1, .float _ => simp [matchesVal] at h
  | .list t1, .str _ => simp [matchesVal] at h
  | .list t1, .datetime _ => simp [matchesVal] at h
  | .list t1, .dict _ => simp [matchesVal] at h
  | .list t1, .inst _ _ _ => simp [matchesVal] at h
  | .list t1, .undef => simp [matchesVal] at h
termination_by (sizeOf v, sizeOf t)
decreasing_by
  all_goals simp_wf
  all_goals
    first
      | (apply Prod.Lex.left; omega)
      | (apply Prod.Lex.right; omega)

mutual
theorem serialize_raw (dts : String → PyVal) (k : String) (v : PyVal)
    (h : isJson v = true) : JsonObj.serializeItem dts k v = (k, v) := by
  match v with
  | .null => rfl
  | .bool _ => rfl
  | .int _ => rfl
  | .float _ => rfl
  | .str _ => rfl
  | .dict _ => rfl
  | .datetime _ => simp [isJson] at h
  | .inst _ _ _ => simp [isJson] at h
  | .undef => simp [isJson] at h
  | .list xs =>
    have h2 : isJsonL xs = true := by simpa [isJson] using h
    simp [JsonObj.serializeItem, serializeEls_raw dts k xs h2]

theorem serializeEls_raw (dts : String → PyVal) (k : String)
    (xs : List PyVal) (h : isJsonL xs = true) :
    JsonObj.serializeEls dts k xs = xs := by
  match xs with
  | [] => rfl
  | el :: rest =>
    rw [isJsonL, Bool.and_eq_true] at h
    have hu : isUndef el = false := by
      cases el <;> simp_all [isJson, isUndef]
    simp [JsonObj.serializeEls, serialize_raw dts k el h.1, hu,
      serializeEls_raw dts k rest h.2]
end

mutual
theorem jeq_refl (v : PyVal) (h : isJson v = true) : jeq v v = true := by
  match v with
  | .null => rfl
  | .bool b => simp [jeq]
  | .int n => simp [jeq]
  | .float s => simp [jeq]
  | .str s => simp [jeq]
  | .datetime _ => simp [isJson] at h
  | .inst _ _ _ => simp [isJson] at h
  | .undef => simp [isJson] at h
  | .list xs =>
    have h2 : isJsonL xs = true := by simpa [isJson] using h
    simp [jeq, jeqL_refl xs h2]
  | .dict kvs =>
    have hnd : nodupKeysB (kvs.map Prod.fst) = true := by
      simp [isJson, Bool.and_eq_true] at h
      exact h.1
    have hj : isJsonD kvs = true := by
      simp [isJson, Bool.and_eq_true] at h
      exact h.2
    have hsub : ∀ p ∈ kvs, lookupKV kvs p.1 = some p.2 := by
      intro p hp
      exact lookupKV_of_mem_nodup hnd (by rcases p with ⟨a, b⟩; exact hp)
    simp [jeq, jeqD_sub kvs kvs hsub hj]

theorem jeqL_refl (xs : List PyVal) (h : isJsonL xs = true) :
    jeqL xs xs = true := by
  match xs with
  | [] => rfl
  | el :: rest =>
    rw [isJsonL, Bool.and_eq_true] at h
    simp [jeqL, jeq_refl el h.1, jeqL_refl rest h.2]

theorem jeqD_sub (A kvs : List (String × PyVal))
    (hsub : ∀ p ∈ A, lookupKV kvs p.1 = some p.2) (hA : isJsonD A = true) :
    jeqD A kvs = true := by
  match A with
  | [] => rfl
  | p :: rest =>
    rw [isJsonD, Bool.and_eq_true] at hA
    have hl := hsub p (List.mem_cons_self _ _)
    rcases p with ⟨k1, v1⟩
    simp [jeqD, hl, jeq_refl v1 hA.1,
      jeqD_sub rest kvs (fun q hq => hsub q (List.mem_cons_of_mem _ hq))
        hA.2]
end

theorem setField_cons (k1 : String) (v1 : PyVal)
    (rest : List (String × PyVal)) (k : String) (v : PyVal) :
    setField ((k1, v1) :: rest) k v
      = (if k1 == k then (k, v) else (k1, v1)) :: setField rest k v := by
  simp only [setField, List.map_cons]

theorem setField_lookup_self {fields : List (String × PyVal)} {k : String}
    (v : PyVal) (h : (lookupKV fields k).isSome = true) :
    lookupKV (setField fields k v) k = some v := by
  induction fields with
  | nil => simp [lookupKV] at h
  | cons p rest ih =>
    rcases p with ⟨k1, v1⟩
    rw [setField_cons]
    by_cases h1 : k1 = k
    · simp [lookupKV, h1]
    · simp only [lookupKV, beq_iff_eq, h1, if_false] at h
      simp only [beq_iff_eq, h1, if_false, lookupKV]
      exact ih h

theorem setField_lookup_other {fields : List (String × PyVal)} {k n : String}
    (v : PyVal) (h : n ≠ k) :
    lookupKV (setField fields k v) n = lookupKV fields n := by
  induction fields with
  | nil => simp [setField, lookupKV]
  | cons p rest ih =>
    rcases p with ⟨k1, v1⟩
    rw [setField_cons]
    by_cases h1 : k1 = k
    · have h3 : k1 ≠ n := by
        rw [h1]
        exact fun he => h he.symm
      simp only [h1, beq_self_eq_true, if_true, lookupKV, beq_iff_eq,
        Ne.symm h, if_false, h3]
      exact ih
    · simp only [beq_iff_eq, h1, if_false, lookupKV]
      by_cases h2 : k1 = n
      · simp [h2]
      · simp only [beq_iff_eq, h2, if_false]
        exact ih

theorem setField_isSome (fields : List (String × PyVal)) (k n : String)
    (v : PyVal) :
    (lookupKV (setField fields k v) n).isSome
      = (lookupKV fields n).isSome := by
  by_cases h : n ∈ fields.map Prod.fst
  · rw [Bool.eq_iff_iff]
    constructor
    · intro _
      exact lookupKV_isSome_iff.mpr h
    · intro _
      refine lookupKV_isSome_iff.mpr ?_
      rw [setField_names]
      exact h
  · have h1 : (lookupKV fields n).isSome = false := by
      rw [Bool.eq_false_iff]
      intro hc
      exact h (lookupKV_isSome_iff.mp hc)
    have h2 : (lookupKV (setField fields k v) n).isSome = false := by
      rw [Bool.eq_false_iff]
      intro hc
      have := lookupKV_isSome_iff.mp hc
      rw [setField_names] at this
      exact h this
    rw [h1, h2]

theorem parseItem_fst (env : Env) (dtp : PyVal → Option PyVal) (s : Schema)
    (k : String) (v : PyVal) (t : Option JType)
    (h : (hintOf s k).isSome = true) :
    JsonObj.parseItem env dtp s k v t
      = (some k, JsonObj.parseCoerce env dtp s k v t) := by
  rcases hk : hintOf s k with _ | t0
  · rw [hk] at h
    cases h
  · simp [JsonObj.parseItem, hk]

theorem parseFields_lookup (env : Env) (dtp : PyVal → Option PyVal)
    (s : Schema) (kvs : List (String × PyVal))
    (fields : List (String × PyVal)) (n : String)
    (hnd : nodupKeysB (kvs.map Prod.fst) = true)
    (hcomp : ∀ k, (hintOf s k).isSome = true →
      (lookupKV fields k).isSome = true) :
    lookupKV (JsonObj.parseFields env dtp s kvs fields) n =
      match lookupKV kvs n, hintOf s n with
      | some w, some _ =>
        some (JsonObj.parseCoerce env dtp s n w (hintOf s n))
      | some _, Option.none => lookupKV fields n
      | Option.none, _ => lookupKV fields n := by
  induction kvs generalizing fields with
  | nil =>
    simp only [JsonObj.parseFields, lookupKV]
  | cons p rest ih =>
    rcases p with ⟨k, w⟩
    simp only [List.map_cons, nodupKeysB, Bool.and_eq_true,
      Bool.not_eq_true'] at hnd
    have hkrest : k ∉ rest.map Prod.fst := by
      intro hc
      have := contains_iff_memS.mpr hc
      rw [hnd.1] at this
      cases this
    have hrestnone : lookupKV rest k = Option.none := by
      rcases hr : lookupKV rest k with _ | w2
      · rfl
      · exact absurd (lookupKV_isSome_iff.mp (by rw [hr]; rfl)) hkrest
    rcases hk : hintOf s k with _ | t0
    · have hstep : JsonObj.parseFields env dtp s ((k, w) :: rest) fields
          = JsonObj.parseFields env dtp s rest fields := by
        rw [JsonObj.parseFields, hk]
      rw [hstep, ih fields hnd.2 hcomp]
      by_cases hn : n = k
      · subst hn
        simp [lookupKV, hk, hrestnone]
      · simp only [lookupKV, beq_iff_eq, Ne.symm hn, if_false]
    · have hstep : JsonObj.parseFields env dtp s ((k, w) :: rest) fields
          = JsonObj.parseFields env dtp s rest
              (setField fields k
                (JsonObj.parseCoerce env dtp s k w (hintOf s k))) := by
        rw [JsonObj.parseFields, hk]
      have hcomp2 : ∀ k2, (hintOf s k2).isSome = true →
          (lookupKV (setField fields k
            (JsonObj.parseCoerce env dtp s k w (hintOf s k))) k2).isSome
              = true := by
        intro k2 hh
        rw [setField_isSome]
        exact hcomp k2 hh
      rw [hstep, ih _ hnd.2 hcomp2]
      by_cases hn : n = k
      · subst hn
        have hself := @setField_lookup_self fields n
          (JsonObj.parseCoerce env dtp s n w (hintOf s n))
          (hcomp n (by rw [hk]; rfl))
        simp only [hk] at hself ⊢
        simp [lookupKV, hrestnone, hself]
      · have hother := @setField_lookup_other fields k n
          (JsonObj.parseCoerce env dtp s k w (hintOf s k)) hn
        simp only [hk] at hother ⊢
        simp [lookupKV, beq_iff_eq, Ne.symm hn, hother]

theorem fields_as_map (flds : List Field) (F : List (String × PyVal))
    (hn : F.map Prod.fst = flds.map Field.name)
    (hnd : nodupKeysB (flds.map Field.name) = true) :
    F = flds.map
      (fun f => (f.name, (lookupKV F f.name).getD PyVal.undef)) := by
  induction flds generalizing F with
  | nil =>
    simp only [List.map_nil, List.map_eq_nil_iff] at hn ⊢
    exact hn
  | cons f rest ih =>
    rcases F with _ | ⟨p, F2⟩
    · simp at hn
    · rcases p with ⟨k1, v1⟩
      simp only [List.map_cons, List.cons.injEq] at hn
      rcases hn with ⟨hp1, hrest⟩
      subst hp1
      simp only [List.map_cons, nodupKeysB, Bool.and_eq_true,
        Bool.not_eq_true'] at hnd
      have hhead : lookupKV ((f.name, v1) :: F2) f.name = some v1 := by
        simp [lookupKV]
      have htail : ∀ g ∈ rest,
          lookupKV ((f.name, v1) :: F2) g.name = lookupKV F2 g.name := by
        intro g hg
        have hgne : f.name ≠ g.name := by
          intro he
          have hgm : g.name ∈ rest.map Field.name :=
            List.mem_map.mpr ⟨g, hg, rfl⟩
          rw [← he] at hgm
          have := contains_iff_memS.mpr hgm
          rw [hnd.1] at this
          cases this
        simp [lookupKV, hgne, beq_iff_eq]
      have hih := ih F2 hrest hnd.2
      simp only [List.map_cons, List.cons.injEq]
      constructor
      · simp [hhead]
      · have hmc : rest.map
            (fun g => (g.name,
              (lookupKV ((f.name, v1) :: F2) g.name).getD PyVal.undef))
            = rest.map
              (fun g => (g.name, (lookupKV F2 g.name).getD PyVal.undef)) :=
          List.map_congr_left (fun g hg => by rw [htail g hg])
        rw [hmc]
        exact hih

theorem countP_disjoint {α : Type} (l : List α) (p q : α → Bool)
    (hdis : ∀ x ∈ l, ¬(p x = true ∧ q x = true)) :
    l.countP (fun x => p x || q x) = l.countP p + l.countP q := by
  induction l with
  | nil => simp
  | cons a rest ih =>
    have hd := hdis a (List.mem_cons_self _ _)
    have ihr := ih (fun x hx => hdis x (List.mem_cons_of_mem _ hx))
    rcases hp : p a <;> rcases hq : q a <;>
      simp_all [List.countP_cons] <;> omega

theorem countP_eq_one_of_nodup_mem (l : List String) (k : String)
    (hnd : nodupKeysB l = true) (hm : k ∈ l) :
    l.countP (fun x => x == k) = 1 := by
  induction l with
  | nil => cases hm
  | cons a rest ih =>
    simp only [nodupKeysB, Bool.and_eq_true, Bool.not_eq_true'] at hnd
    rcases List.mem_cons.mp hm with he | hm2
    · subst he
      have hz : rest.countP (fun x => x == k) = 0 := by
        rw [List.countP_eq_zero]
        intro a2 ha
        simp only [beq_iff_eq]
        intro he2
        rw [he2] at ha
        have := contains_iff_memS.mpr ha
        rw [hnd.1] at this
        cases this
      simp [List.countP_cons, hz]
    · have hne : a ≠ k := by
        intro he
        rw [he] at hnd
        have := contains_iff_memS.mpr hm2
        rw [hnd.1] at this
        cases this
      simp [List.countP_cons, hne, ih hnd.2 hm2]

theorem count_present (flds : List Field) (keys : List String)
    (hk : nodupKeysB keys = true)
    (hnf : nodupKeysB (flds.map Field.name) = true)
    (hsub : ∀ k ∈ keys, k ∈ flds.map Field.name) :
    flds.countP (fun f => keys.contains f.name) = keys.length := by
  induction keys with
  | nil =>
    simp
  | cons k rest ih =>
    simp only [nodupKeysB, Bool.and_eq_true, Bool.not_eq_true'] at hk
    have hstep : flds.countP (fun f => (k :: rest).contains f.name)
        = flds.countP (fun f => (f.name == k) || rest.contains f.name) := by
      apply List.countP_congr
      intro f _
      rcases h : f.name == k <;>
        simp_all [List.contains, List.elem_cons]
    rw [hstep]
    have hdis : ∀ f ∈ flds,
        ¬((f.name == k) = true ∧ rest.contains f.name = true) := by
      intro f _ hc
      have he := eq_of_beq hc.1
      have h2 := hc.2
      rw [he] at h2
      rw [hk.1] at h2
      cases h2
    rw [countP_disjoint flds _ _ hdis]
    have hone : flds.countP (fun f => f.name == k) = 1 := by
      have hmap : flds.countP (fun f => f.name == k)
          = (flds.map Field.name).countP (fun x => x == k) := by
        rw [List.countP_map]
        rfl
      rw [hmap]
      exact countP_eq_one_of_nodup_mem _ _ hnf
        (hsub k (List.mem_cons_self _ _))
    rw [hone, ih hk.2 (fun k2 h2 => hsub k2 (List.mem_cons_of_mem _ h2))]
    simp [Nat.add_comm]

theorem RTgood_of_raw (dts : String → PyVal) (k : String) (v : PyVal)
    (hj : isJson v = true) (hu : isUndef v = false) : RTgood dts k v v := by
  refine ⟨hu, ?_, ?_⟩
  · rw [serialize_raw dts k v hj]
    exact hu
  · rw [serialize_raw dts k v hj]
    exact jeq_refl v hj

theorem serializeFields_jeqD (dts : String → PyVal)
    (kvs : List (String × PyVal)) (flds : List Field) (V : Field → PyVal)
    (hf : ∀ f ∈ flds,
      (match lookupKV kvs f.name with
       | some w => RTgood dts f.name (V f) w
       | Option.none => V f = PyVal.undef)) :
    jeqD (JsonObj.serializeFields dts
        (flds.map (fun f => (f.name, V f)))) kvs = true
    ∧ (JsonObj.serializeFields dts
        (flds.map (fun f => (f.name, V f)))).length
      = (flds.filter (fun f => (lookupKV kvs f.name).isSome)).length := by
  induction flds with
  | nil => exact ⟨rfl, rfl⟩
  | cons f rest ih =>
    have hfh := hf f (List.mem_cons_self _ _)
    have ihr := ih (fun g hg => hf g (List.mem_cons_of_mem _ hg))
    rcases hlk : lookupKV kvs f.name with _ | w
    · rw [hlk] at hfh
      have hse : JsonObj.serializeItem dts f.name (V f)
          = (f.name, PyVal.undef) := by
        rw [hfh]
        rfl
      constructor
      · simp only [List.map_cons, JsonObj.serializeFields, hse, isUndef]
        exact ihr.1
      · simp only [List.map_cons, JsonObj.serializeFields, hse, isUndef,
          List.filter, hlk, Option.isSome_none]
        exact ihr.2
    · rw [hlk] at hfh
      rcases hfh with ⟨hu1, hu2, hj⟩
      rcases hse : JsonObj.serializeItem dts f.name (V f) with ⟨k2, u⟩
      have hk2 : k2 = f.name := by
        have := serializeItem_fst dts f.name (V f)
        rw [hse] at this
        exact this
      subst hk2
      rw [hse] at hu2 hj
      constructor
      · simp only [List.map_cons, JsonObj.serializeFields, hse, hu2,
          Bool.false_eq_true, if_false, jeqD, hlk]
        simp [hj, ihr.1]
      · simp only [List.map_cons, JsonObj.serializeFields, hse, hu2,
          Bool.false_eq_true, if_false, List.filter, hlk, Option.isSome_some,
          List.length_cons]
        rw [ihr.2]

mutual
theorem roundtrip_inst (env : Env) (dtp : PyVal → Option PyVal)
    (dts : String → PyVal) (cls : String) (v : PyVal)
    (hwf : EnvWF env = true)
    (h : matchesVal env (.record cls) v = true) :
    jeq (JsonObj.json dts (JsonObj.init env dtp cls v)) v = true := by
  match v with
  | .null => simp [matchesVal] at h
  | .bool _ => simp [matchesVal] at h
  | .int _ => simp [matchesVal] at h
  | .float _ => simp [matchesVal] at h
  | .str _ => simp [matchesVal] at h
  | .datetime _ => simp [matchesVal] at h
  | .list _ => simp [matchesVal] at h
  | .inst _ _ _ => simp [matchesVal] at h
  | .undef => simp [matchesVal] at h
  | .dict kvs =>
    rw [matchesVal] at h
    rcases Bool.and_eq_true_iff.mp h with ⟨h12, habs⟩
    rcases Bool.and_eq_true_iff.mp h12 with ⟨hndk, hkv⟩
    have hnds : nodupNamesB (getSchema env cls).fields = true :=
      EnvWF_nodup hwf cls
    have hcomp : ∀ k, (hintOf (getSchema env cls) k).isSome = true →
        (lookupKV (initFields (getSchema env cls)) k).isSome = true := by
      intro k hh
      rcases ho : hintOf (getSchema env cls) k with _ | t2
      · rw [ho] at hh
        cases hh
      · rcases hintOf_mem ho with ⟨fd, hm, hn2, _⟩
        rw [lookupKV_isSome_iff, initFields_names]
        exact List.mem_map.mpr ⟨fd, hm, hn2⟩
    have hlkp := fun n => parseFields_lookup env dtp (getSchema env cls) kvs
      (initFields (getSchema env cls)) n hndk hcomp
    have hFnames : (JsonObj.parseFields env dtp (getSchema env cls) kvs
        (initFields (getSchema env cls))).map Prod.fst
          = (getSchema env cls).fields.map Field.name := by
      rw [parseFields_names, initFields_names]
    have hmap := fields_as_map (getSchema env cls).fields
      (JsonObj.parseFields env dtp (getSchema env cls) kvs
        (initFields (getSchema env cls))) hFnames hnds
    have hrtk := roundtrip_kvs env dtp dts (getSchema env cls) kvs hwf hkv
    have hf : ∀ f ∈ (getSchema env cls).fields,
        (match lookupKV kvs f.name with
         | some w => RTgood dts f.name
            ((lookupKV (JsonObj.parseFields env dtp (getSchema env cls) kvs
              (initFields (getSchema env cls))) f.name).getD PyVal.undef) w
         | Option.none =>
            ((lookupKV (JsonObj.parseFields env dtp (getSchema env cls) kvs
              (initFields (getSchema env cls))) f.name).getD PyVal.undef)
              = PyVal.undef) := by
      intro f hm
      have hhint : hintOf (getSchema env cls) f.name = some f.ty :=
        nodupNamesB_hintOf hnds hm
      rcases hlw : lookupKV kvs f.name with _ | w
      · have habs2 := absentOk_forall habs f hm hlw
        have hinit := initFields_lookup hnds hm
        rw [habs2.2] at hinit
        have hundef : lookupKV (JsonObj.parseFields env dtp
            (getSchema env cls) kvs
            (initFields (getSchema env cls))) f.name
              = some PyVal.undef := by
          simp [hlkp f.name, hlw, hinit]
        rw [hundef]
        rfl
      · have hmem := lookupKV_mem hlw
        have hrt := hrtk (f.name, w) hmem
        have hfound : lookupKV (JsonObj.parseFields env dtp
            (getSchema env cls) kvs
            (initFields (getSchema env cls))) f.name
              = some (JsonObj.parseCoerce env dtp (getSchema env cls) f.name w
                (hintOf (getSchema env cls) f.name)) := by
          simp [hlkp f.name, hlw, hhint]
        rw [hfound]
        exact hrt
    have hmain := serializeFields_jeqD dts kvs (getSchema env cls).fields
      (fun f => (lookupKV (JsonObj.parseFields env dtp (getSchema env cls)
        kvs (initFields (getSchema env cls))) f.name).getD PyVal.undef) hf
    have hlen : (JsonObj.serializeFields dts
        ((getSchema env cls).fields.map (fun f => (f.name,
          (lookupKV (JsonObj.parseFields env dtp (getSchema env cls) kvs
            (initFields (getSchema env cls))) f.name).getD
              PyVal.undef)))).length = kvs.length := by
      rw [hmain.2]
      rw [← List.countP_eq_length_filter]
      have hsub : ∀ k2 ∈ kvs.map Prod.fst,
          k2 ∈ (getSchema env cls).fields.map Field.name := by
        intro k2 hk2
        rcases List.mem_map.mp hk2 with ⟨p, hp, he⟩
        rcases matchesKVs_forall hkv p hp with ⟨t2, ht2, _⟩
        rcases hintOf_mem (by rw [he] at ht2; exact ht2)
          with ⟨fd, hfm, hfn, _⟩
        exact List.mem_map.mpr ⟨fd, hfm, hfn⟩
      have hcnt := count_present (getSchema env cls).fields
        (kvs.map Prod.fst) hndk hnds hsub
      have hpe : (getSchema env cls).fields.countP
          (fun f => (lookupKV kvs f.name).isSome)
            = (getSchema env cls).fields.countP
              (fun f => (kvs.map Prod.fst).contains f.name) := by
        apply List.countP_congr
        intro f _
        constructor
        · intro hx
          exact contains_iff_memS.mpr (lookupKV_isSome_iff.mp hx)
        · intro hx
          exact lookupKV_isSome_iff.mpr (contains_iff_memS.mp hx)
      rw [hpe, hcnt, List.length_map]
    show jeq (PyVal.dict (JsonObj.serializeFields dts
        (JsonObj.parseFields env dtp (getSchema env cls) kvs
          (initFields (getSchema env cls))))) (PyVal.dict kvs) = true
    rw [jeq]
    rw [show JsonObj.parseFields env dtp (getSchema env cls) kvs
        (initFields (getSchema env cls))
      = (getSchema env cls).fields.map (fun f => (f.name,
          (lookupKV (JsonObj.parseFields env dtp (getSchema env cls) kvs
            (initFields (getSchema env cls))) f.name).getD PyVal.undef))
      from hmap]
    rw [Bool.and_eq_true]
    constructor
    · rw [hlen]
      simp
    · exact hmain.1
termination_by (sizeOf v, 0)

theorem roundtrip_kvs (env : Env) (dtp : PyVal → Option PyVal)
    (dts : String → PyVal) (s : Schema) (kvs : List (String × PyVal))
    (hwf : EnvWF env = true) (h : matchesKVs env s kvs = true) :
    ∀ p ∈ kvs,
      RTgood dts p.1 (JsonObj.parseCoerce env dtp s p.1 p.2 (hintOf s p.1))
        p.2 := by
  match kvs with
  | [] =>
    intro p hp
    cases hp
  | (k1, w) :: rest =>
    rw [matchesKVs] at h
    rcases Bool.and_eq_true_iff.mp h with ⟨h1, h2⟩
    intro p hp
    rcases List.mem_cons.mp hp with he | hm
    · subst he
      rcases hh : hintOf s k1 with _ | t
      · rw [hh] at h1
        cases h1
      · rw [hh] at h1
        exact roundtrip_val env dtp dts s k1 t w hwf (by rw [hh]; rfl) h1
    · exact roundtrip_kvs env dtp dts s rest hwf h2 p hm
termination_by (sizeOf kvs, 0)

theorem roundtrip_val (env : Env) (dtp : PyVal → Option PyVal)
    (dts : String → PyVal) (s : Schema) (k : String) (t : JType) (v : PyVal)
    (hwf : EnvWF env = true) (hk : (hintOf s k).isSome = true)
    (h : matchesVal env t v = true) :
    RTgood dts k (JsonObj.parseCoerce env dtp s k v (some t)) v := by
  match t with
  | .int =>
    simp only [JsonObj.parseCoerce]
    exact RTgood_of_raw dts k v (matches_isJson env _ v h)
      (matches_ne_undef env _ v h)
  | .float =>
    simp only [JsonObj.parseCoerce]
    exact RTgood_of_raw dts k v (matches_isJson env _ v h)
      (matches_ne_undef env _ v h)
  | .bool =>
    simp only [JsonObj.parseCoerce]
    exact RTgood_of_raw dts k v (matches_isJson env _ v h)
      (matches_ne_undef env _ v h)
  | .str =>
    simp only [JsonObj.parseCoerce]
    exact RTgood_of_raw dts k v (matches_isJson env _ v h)
      (matches_ne_undef env _ v h)
  | .nul =>
    simp only [JsonObj.parseCoerce]
    exact RTgood_of_raw dts k v (matches_isJson env _ v h)
      (matches_ne_undef env _ v h)
  | .object =>
    simp only [JsonObj.parseCoerce]
    exact RTgood_of_raw dts k v (matches_isJson env _ v h)
      (matches_ne_undef env _ v h)
  | .dict tk tv =>
    simp only [JsonObj.parseCoerce]
    exact RTgood_of_raw dts k v (matches_isJson env _ v h)
      (matches_ne_undef env _ v h)
  | .union ts =>
    simp only [JsonObj.parseCoerce]
    exact RTgood_of_raw dts k v (matches_isJson env _ v h)
      (matches_ne_undef env _ v h)
  | .opt t1 =>
    simp only [JsonObj.parseCoerce]
    exact RTgood_of_raw dts k v (matches_isJson env _ v h)
      (matches_ne_undef env _ v h)
  | .any =>
    cases v <;> simp [matchesVal] at h
  | .datetime =>
    cases v <;> simp [matchesVal] at h
  | .record cls =>
    match v with
    | .null => simp [matchesVal] at h
    | .bool _ => simp [matchesVal] at h
    | .int _ => simp [matchesVal] at h
    | .float _ => simp [matchesVal] at h
    | .str _ => simp [matchesVal] at h
    | .datetime _ => simp [matchesVal] at h
    | .list _ => simp [matchesVal] at h
    | .inst _ _ _ => simp [matchesVal] at h
    | .undef => simp [matchesVal] at h
    | .dict kvs =>
      refine ⟨rfl, rfl, ?_⟩
      exact roundtrip_inst env dtp dts cls (.dict kvs) hwf h
  | .list t1 =>
    match v with
    | .null => simp [matchesVal] at h
    | .bool _ => simp [matchesVal] at h
    | .int _ => simp [matchesVal] at h
    | .float _ => simp [matchesVal] at h
    | .str _ => simp [matchesVal] at h
    | .datetime _ => simp [matchesVal] at h
    | .dict _ => simp [matchesVal] at h
    | .inst _ _ _ => simp [matchesVal] at h
    | .undef => simp [matchesVal] at h
    | .list xs =>
      rw [matchesVal] at h
      refine ⟨rfl, rfl, ?_⟩
      show jeq (PyVal.list (JsonObj.serializeEls dts k
        (JsonObj.parseEls env dtp s k xs t1))) (PyVal.list xs) = true
      rw [jeq]
      exact roundtrip_els env dtp dts s k t1 xs hwf hk h
termination_by (sizeOf v, sizeOf t + 1)

theorem roundtrip_els (env : Env) (dtp : PyVal → Option PyVal)
    (dts : String → PyVal) (s : Schema) (k : String) (t1 : JType)
    (xs : List PyVal) (hwf : EnvWF env = true)
    (hk : (hintOf s k).isSome = true) (h : matchesL env t1 xs = true) :
    jeqL (JsonObj.serializeEls dts k (JsonObj.parseEls env dtp s k xs t1))
      xs = true := by
  match xs with
  | [] =>
    rcases hh : hintOf s k with _ | t0
    · rw [hh] at hk
      cases hk
    · simp [JsonObj.parseEls, JsonObj.serializeEls, jeqL]
  | el :: rest =>
    rw [matchesL] at h
    rcases Bool.and_eq_true_iff.mp h with ⟨h1, h2⟩
    rcases hh : hintOf s k with _ | t0
    · rw [hh] at hk
      cases hk
    · have hrt := roundtrip_val env dtp dts s k t1 el hwf hk h1
      rcases hrt with ⟨hu1, hu2, hj⟩
      have ihr := roundtrip_els env dtp dts s k t1 rest hwf hk h2
      rw [JsonObj.parseEls, hh]
      rw [hu1]
      simp only [Bool.false_eq_true, if_false]
      rcases hse : JsonObj.serializeItem dts k
          (JsonObj.parseCoerce env dtp s k el (some t1)) with ⟨k2, u⟩
      rw [hse] at hu2 hj
      rw [JsonObj.serializeEls, hse]
      simp only [hu2, Bool.false_eq_true, if_false]
      rw [jeqL]
      rw [Bool.and_eq_true]
      exact ⟨hj, ihr⟩
termination_by (sizeOf xs, sizeOf t1 + 1)
end

/-- C1: for every typed record instance produced by parse (`JsonObj.__init__`)
from a JSON object whose keys and values exactly match the schema (every
present key is a declared field with a structurally matching value, keys are
distinct, and every absent field is optional with no class default; no hooks
registered, so no key renames occur), serialize (`JsonObj.json`) returns a
JSON value structurally equal (`jeq`, dict-order-insensitive) to the original
input. Absent optional fields stay the absence marker and are elided, which
restores the input exactly. -/
theorem C1_parse_serialize_roundtrip (env : Env) (dtp : PyVal → Option PyVal)
    (dts : String → PyVal) (cls : String) (v : PyVal)
    (hwf : EnvWF env = true)
    (h : matchesInst env cls v = true) :
    jeq (JsonObj.json dts (JsonObj.init env dtp cls v)) v = true :=
  roundtrip_inst env dtp dts cls v hwf h

theorem C1_parse_serialize_roundtrip_witness :
    EnvWF envObjs = true
    ∧ matchesInst envObjs "Main"
        (.dict [("objs", .list [.dict [("name", .str "bob")]])]) = true
    ∧ jeq (JsonObj.json dts0 (JsonObj.init envObjs dtp0 "Main"
          (.dict [("objs", .list [.dict [("name", .str "bob")]])])))
        (.dict [("objs", .list [.dict [("name", .str "bob")]])]) = true :=
  ⟨by rfl,
   by simp [matchesInst, matchesVal, matchesKVs, matchesL, absentOk,
     nodupKeysB, getSchema, hintOf, findTy, lookupKV, envObjs, List.find?,
     isOptTy],
   C1_parse_serialize_roundtrip envObjs dtp0 dts0 "Main"
     (.dict [("objs", .list [.dict [("name", .str "bob")]])]) (by rfl)
     (by simp [matchesInst, matchesVal, matchesKVs, matchesL, absentOk,
       nodupKeysB, getSchema, hintOf, findTy, lookupKV, envObjs, List.find?,
       isOptTy])⟩

end Bafser
